import Mathlib

/-!
Shallow embedding of the structure-grouping core of `emmet-core`
(`emmet/core/structure_group.py`) and of the classical-MD helper functions of
`emmet-builders` (`emmet/builders/classical_md/utils.py`), together with
theorems checking the specified properties against this embedding.

Modelling conventions:
* Python ints are `Int`, Python lists are `List`, Python sets are `Finset`
  (every consumer of a set in the source is order-insensitive: emptiness,
  membership, cardinality, or sorting).
* A Python list cell that may hold either `None` or an int is `Option Int`.
* Fallible Python code returns `Except PyErr`.
* External library calls (pymatgen `StructureMatcher.fit`, compositions) are
  modelled as explicit parameters or as canonical pure functions on the
  composition data they inspect.
-/

namespace Emmet

/-- Python exception values raised by the modelled functions. -/
inductive PyErr where
  | valueError (msg : String)
  | keyError
  | indexError
  | runtimeError (msg : String)
deriving DecidableEq

/-- A task identifier as accepted by `_get_id_num`: a Python `int`, a Python
`str`, or a value of any other type (the `other` constructor). -/
inductive TaskId where
  | intId (n : Int)
  | strId (s : String)
  | other
deriving DecidableEq

deriving instance DecidableEq for Except

/-- Drop leading and trailing whitespace characters, as Python `int(str)`
does before parsing. -/
def trimChars (l : List Char) : List Char :=
  ((l.dropWhile Char.isWhitespace).reverse.dropWhile Char.isWhitespace).reverse

/-- Numeric value of a list of decimal digit characters. -/
def digitsToNat (l : List Char) : Nat :=
  l.foldl (fun a c => a * 10 + (c.toNat - 48)) 0

/-- Whether a character list is a valid Python decimal digit body for
`int(str)`: nonempty, decimal digits with single underscores allowed only
strictly between digits. -/
def validPyDigits (l : List Char) : Bool :=
  !l.isEmpty &&
    l.all (fun c => c.isDigit || c == '_') &&
    (match l.head? with
     | some c => c.isDigit
     | none => false) &&
    (match l.getLast? with
     | some c => c.isDigit
     | none => false) &&
    ((l.zip l.tail).all (fun p => !(p.1 == '_' && p.2 == '_')))

/-- Parse a digit body, returning its value when valid. -/
def parsePyDigits (l : List Char) : Option Nat :=
  if validPyDigits l then some (digitsToNat (l.filter Char.isDigit)) else none

/-- Model of Python `int(str)`: optional surrounding whitespace, optional
sign, then a decimal digit body. Returns `none` where Python raises
`ValueError`. -/
def parsePyInt (s : String) : Option Int :=
  match trimChars s.toList with
  | '+' :: rest => (parsePyDigits rest).map (fun n => (n : Int))
  | '-' :: rest => (parsePyDigits rest).map (fun n => -(n : Int))
  | l => (parsePyDigits l).map (fun n => (n : Int))

/-- Model of Python `str.split` with a single-character separator; the result
is always nonempty, matching Python. -/
def splitOnChar (sep : Char) (l : List Char) : List (List Char) :=
  l.foldr
    (fun x acc =>
      match acc with
      | [] => [[x]]
      | a :: rest => if x = sep then [] :: a :: rest else (x :: a) :: rest)
    [[]]

/-- The final hyphen-separated segment of a string, modelling the Python
expression `task_id.split(chr 45)[-1]`. -/
def lastSegment (s : String) : String :=
  String.mk ((splitOnChar '-' s.toList).getLastD [])

/-- Embedding of `_get_id_num` (structure_group.py): a plain integer is its
own key; for a string the final hyphen-separated segment is parsed with
`int`; any other value raises `ValueError`. -/
def _get_id_num (t : TaskId) : Except PyErr Int :=
  match t with
  | .intId n => .ok n
  | .strId s =>
      match parsePyInt (lastSegment s) with
      | some n => .ok n
      | none => .error (.valueError ("invalid literal for int with base 10: " ++ lastSegment s))
  | .other => .error (.valueError "TaskID needs to be either a number or of the form xxx-#####")

/-- Specification-side integer key of a task id: `some` exactly on the
well-formed ids (a plain integer, or a string whose final hyphen-separated
segment parses as an integer). -/
def idKey (t : TaskId) : Option Int :=
  match t with
  | .intId n => some n
  | .strId s => parsePyInt (lastSegment s)
  | .other => none

/-- One step of the inner loop of `generic_groupby` at outer index `i1` and
inner index `i2`. The label list holds `Option Int` because the Python cells
could in principle hold `None`, and the source tests `list_out[i2] is None`
even though the list is initialised with `-1`. -/
def ggInnerStep {α : Type} [Inhabited α] (list_in : List α) (comp : α → α → Bool)
    (i1 : Nat) (st : List (Option Int) × Int) (i2 : Nat) : List (Option Int) × Int :=
  if comp (list_in.getD i1 default) (list_in.getD i2 default) then
    if st.1.getD i2 none = none then
      (st.1.set i2 (st.1.getD i1 none), st.2)
    else
      (st.1.set i1 (st.1.getD i2 none), st.2 - 1)
  else st

/-- One step of the outer loop of `generic_groupby` at index `i1`: skip when
the current cell differs from `-1`, otherwise write the running label number,
run the inner loop over all later indices, and advance the label number. -/
def ggOuterStep {α : Type} [Inhabited α] (list_in : List α) (comp : α → α → Bool)
    (st : List (Option Int) × Int) (i1 : Nat) : List (Option Int) × Int :=
  if st.1.getD i1 none = some (-1) then
    let st1 := (st.1.set i1 (some st.2), st.2)
    let st2 := (List.range' (i1 + 1) (list_in.length - (i1 + 1))).foldl
      (ggInnerStep list_in comp i1) st1
    (st2.1, st2.2 + 1)
  else st

/-- Embedding of `generic_groupby` (structure_group.py): a left-to-right scan
that initialises every label cell to `-1` and returns the final label list. -/
def generic_groupby {α : Type} [Inhabited α] (list_in : List α) (comp : α → α → Bool) :
    List (Option Int) :=
  ((List.range list_in.length).foldl (ggOuterStep list_in comp)
    (List.replicate list_in.length (some (-1)), 0)).1

/-- Boolean string comparison used to model Python string sorting:
lexicographic on code points, expressed on the underlying character lists. -/
def strLe (a b : String) : Bool := !(decide (b.data < a.data))

/-- Insert into a list before the first element for which `le` does not put
the new element strictly later; together with `sortLeB` this models the
stable ascending sort performed by Python `sorted` and `list.sort`. -/
def insertLeB {β : Type} (le : β → β → Bool) (x : β) : List β → List β
  | [] => [x]
  | y :: ys => if le x y then x :: y :: ys else y :: insertLeB le x ys

/-- Stable insertion sort with a boolean comparison. -/
def sortLeB {β : Type} (le : β → β → Bool) : List β → List β
  | [] => []
  | x :: xs => insertLeB le x (sortLeB le xs)

/-- Canonical list form of a finite set of strings: distinct elements in
ascending order. Python sets are modelled by the lists of their elements, and
`canonSet` is applied wherever the source iterates or sorts a set, so that
each element is visited once and order never depends on construction
history. -/
def canonSet (l : List String) : List String :=
  sortLeB strLe l.dedup

/-- A chemical composition as a mapping from element symbol to atom count,
modelling the dictionary returned by pymatgen `Composition.as_dict`. -/
abbrev Comp := List (String × Nat)

/-- The element symbols of a composition (the dictionary keys). -/
def keysOf (c : Comp) : List String :=
  c.map Prod.fst

/-- Greatest common divisor of the atom counts of a composition. -/
def compGcd (c : Comp) : Nat :=
  c.foldl (fun g p => Nat.gcd g p.2) 0

/-- Canonical reduced form of a composition: counts divided by their gcd and
entries sorted by element symbol. Models the normalisation pymatgen applies
when it computes a reduced formula. -/
def reduceComp (c : Comp) : Comp :=
  sortLeB (fun a b => strLe a.1 b.1) (c.map (fun p => (p.1, p.2 / compGcd c)))

/-- Model of pymatgen `Composition.reduced_formula`: a canonical textual
rendering of the reduced composition. Equal compositions (up to order and
overall scale) receive equal formula strings. -/
def reduced_formula (c : Comp) : String :=
  String.join ((reduceComp c).map (fun p => p.1 ++ toString p.2))

/-- A computed entry as used by `StructureGroupDoc`: an identifier, a
composition, and an opaque structure of type `σ` that only the externally
supplied structure-matcher predicate inspects. -/
structure Entry (σ : Type) where
  entry_id : TaskId
  composition : Comp
  struct : σ
deriving DecidableEq

instance {σ : Type} [Inhabited σ] : Inhabited (Entry σ) :=
  ⟨⟨TaskId.other, [], default⟩⟩

/-- Embedding of the fields of `StructureGroupDoc` that
`from_grouped_entries` fills in. The `last_updated` timestamp field is wall
clock time and is not modelled. -/
structure StructureGroupDoc where
  material_id : TaskId
  structure_matched : Bool
  has_distinct_compositions : Bool
  grouped_ids : List TaskId
  framework_formula : String
  ignored_species : List String
  chemsys : String
deriving DecidableEq

/-- The running minimum scan performed by Python `min(ids, key=_get_id_num)`
after the first element has been keyed: on ties the earlier element wins. -/
def pyMinLoop (xs : List TaskId) (best : TaskId × Int) : Except PyErr (TaskId × Int) :=
  match xs with
  | [] => .ok best
  | y :: ys =>
      match _get_id_num y with
      | .ok ky => pyMinLoop ys (if ky < best.2 then (y, ky) else best)
      | .error e => .error e

/-- Model of Python `min(ids, key=_get_id_num)`: `ValueError` on an empty
sequence, propagation of the first key error otherwise. -/
def pyMinByKey (ids : List TaskId) : Except PyErr TaskId :=
  match ids with
  | [] => .error (.valueError "min arg is an empty sequence")
  | x :: xs =>
      match _get_id_num x with
      | .ok kx => (pyMinLoop xs (x, kx)).map Prod.fst
      | .error e => .error e

/-- Union of all element symbols over the entries of a group, modelling the
accumulation of the `all_atoms` set in `from_grouped_entries`; only
membership in the result is ever consumed. -/
def groupAtoms {σ : Type} (entries : List (Entry σ)) : List String :=
  entries.foldl (fun s e => s ++ keysOf e.composition) []

/-- All reduced formulas over the entries of a group, modelling the
accumulation of the `all_comps` set in `from_grouped_entries`; only the
number of distinct values is ever consumed. -/
def groupFormulas {σ : Type} (entries : List (Entry σ)) : List String :=
  entries.foldl (fun s e => s ++ [reduced_formula e.composition]) []

/-- Look up every requested key in the composition of the first entry,
modelling the dictionary comprehension over `common_atoms` in
`from_grouped_entries`; a missing key raises `KeyError`. -/
def lookupAll (c : Comp) : List String → Except PyErr Comp
  | [] => .ok []
  | k :: rest =>
      match c.lookup k with
      | some v => (lookupAll c rest).map (fun tl => (k, v) :: tl)
      | none => .error .keyError

/-- The framework-formula computation of `from_grouped_entries`: the string
"ignored" when no atom survives outside the ignored species, otherwise the
reduced formula of the first entry restricted to the surviving atoms. -/
def framework_of_group {σ : Type} (entries : List (Entry σ))
    (ignored_species : List String) : Except PyErr String :=
  let common_atoms := (groupAtoms entries).filter (fun a => !(ignored_species.contains a))
  if common_atoms.isEmpty then .ok "ignored"
  else
    match entries with
    | [] => .error .indexError
    | e0 :: _ =>
        (lookupAll e0.composition (canonSet common_atoms)).map reduced_formula

/-- Embedding of `StructureGroupDoc.from_grouped_entries`: summarise an
already-grouped entry list into a document. Exceptions from the framework
computation and from the canonical-id selection propagate. -/
def from_grouped_entries {σ : Type} (entries : List (Entry σ))
    (ignored_species : List String) (structure_matched : Bool) :
    Except PyErr StructureGroupDoc :=
  match framework_of_group entries ignored_species with
  | .error e => .error e
  | .ok framework_str =>
    let ids := entries.map (fun e => e.entry_id)
    match pyMinByKey ids with
    | .error e => .error e
    | .ok lowest_id =>
      .ok
        { material_id := lowest_id
          grouped_ids := ids
          structure_matched := structure_matched
          framework_formula := framework_str
          ignored_species := sortLeB strLe ignored_species
          chemsys := String.intercalate "-" (canonSet (groupAtoms entries ++ ignored_species))
          has_distinct_compositions := decide (1 < (groupFormulas entries).dedup.length) }

/-- Embedding of `_get_framework` (structure_group.py): the reduced formula
of an entry with the ignored species removed, or the string "ignored" when
the element set equals the ignored set exactly. The Python function receives
the reduced formula string and re-parses it; the round trip is modelled by
`reduceComp`. -/
def _get_framework (c : Comp) (ignored_species : List String) : String :=
  let dd := reduceComp c
  if canonSet (keysOf dd) = canonSet ignored_species then "ignored"
  else reduced_formula (dd.filter (fun p => !(ignored_species.contains p.1)))

/-- Embedding of `group_entries_with_structure_matcher`: label the entries
with `generic_groupby` under the structure-fit predicate and collect, for
each distinct label, the entries carrying it. -/
def group_entries_with_structure_matcher {σ : Type} [Inhabited σ]
    (g : List (Entry σ)) (fit : σ → σ → Bool) : List (List (Entry σ)) :=
  let labs := generic_groupby g (fun x y => fit x.struct y.struct)
  labs.dedup.map (fun ilab => ((g.zip labs).filter (fun p => p.2 == ilab)).map Prod.fst)

/-- Maximal runs of consecutive elements sharing a key, modelling
`itertools.groupby` on a list already sorted by that key. -/
def runsBy {β : Type} (key : β → String) (l : List β) : List (String × List β) :=
  l.foldr
    (fun e acc =>
      match acc with
      | [] => [(key e, [e])]
      | (k, g) :: rest =>
          if key e = k then (key e, e :: g) :: rest else (key e, [e]) :: (k, g) :: rest)
    []

/-- The per-framework accumulation loop of `from_ungrouped_structure_entries`
over the framework groups, threading the result list and the member counter
`cnt_`. In the "ignored" branch the document is built and counted but not
appended to the results, exactly as in the source. -/
def buildGroupsLoop {σ : Type} [Inhabited σ] (ignored_species : List String)
    (fit : σ → σ → Bool) (acc : List StructureGroupDoc × Nat) :
    List (String × List (Entry σ)) → Except PyErr (List StructureGroupDoc × Nat)
  | [] => .ok acc
  | (framework, f_group_l) :: rest =>
      if framework = "ignored" then do
        let struct_group ← from_grouped_entries f_group_l ignored_species false
        buildGroupsLoop ignored_species fit
          (acc.1, acc.2 + struct_group.grouped_ids.length) rest
      else do
        let acc2 ← (group_entries_with_structure_matcher f_group_l fit).foldlM
          (fun a g => do
            let struct_group ← from_grouped_entries g ignored_species true
            pure (a.1 ++ [struct_group], a.2 + struct_group.grouped_ids.length))
          acc
        buildGroupsLoop ignored_species fit acc2 rest

/-- Embedding of `StructureGroupDoc.from_ungrouped_structure_entries`: tag
every entry with its framework formula, sort and group by it, build one
document per structure-matched subgroup, and finally raise `RuntimeError`
when the accumulated member count differs from the input length. The
pymatgen `StructureMatcher` configured with the tolerance arguments is
modelled by the abstract predicate `fit`. -/
def from_ungrouped_structure_entries {σ : Type} [Inhabited σ]
    (entries : List (Entry σ)) (ignored_species : List String)
    (fit : σ → σ → Bool) : Except PyErr (List StructureGroupDoc) := do
  let fw := fun (e : Entry σ) => _get_framework e.composition ignored_species
  let sorted_entries := sortLeB (fun a b => strLe (fw a) (fw b)) entries
  let framework_groups := runsBy fw sorted_entries
  let res ← buildGroupsLoop ignored_species fit ([], 0) framework_groups
  if res.2 ≠ entries.length then
    .error (.runtimeError "The number of entries in all groups the end does not match the number of supplied entries documents.")
  else
    pure res.1

/-- A labelled residue of an MDAnalysis universe: a residue name and the
residue charge. Charges are modelled as rationals. -/
structure Residue where
  resname : String
  charge : ℚ
deriving DecidableEq

/-- Model of `numpy.unique` on a list of strings: the distinct values in
ascending order. -/
def npUnique (l : List String) : List String :=
  canonSet l

/-- The distinct residue names whose residue charge exceeds the `0.01`
threshold, in ascending order: the quantity `np.unique(...resnames)` that
both `identify_solute` and `identify_networking_solvents` compute. -/
def speciesAboveThreshold (residues : List Residue) : List String :=
  npUnique ((residues.filter (fun r => mkRat 1 100 < r.charge)).map (fun r => r.resname))

/-- Embedding of `identify_solute` (classical_md/utils.py): residues with
charge above `0.01`, distinct names; more than one name raises `ValueError`,
none raises `IndexError` from the `[0]` subscript, one is returned. -/
def identify_solute (residues : List Residue) : Except PyErr String :=
  let unique_names := speciesAboveThreshold residues
  if 1 < unique_names.length then
    .error (.valueError "Multiple cationic species detected, not yet supported.")
  else
    match unique_names with
    | [] => .error .indexError
    | n :: _ => .ok n

/-- Embedding of `identify_networking_solvents` (classical_md/utils.py): the
distinct names of the residues selected by the charge filter written in the
source, namely charge above `0.01`. -/
def identify_networking_solvents (residues : List Residue) : List String :=
  npUnique ((residues.filter (fun r => mkRat 1 100 < r.charge)).map (fun r => r.resname))

/-- Fixture: an entry containing only the ignored species lithium. -/
def liOnlyEntry : Entry Unit := ⟨TaskId.strId "mp-1", [("Li", 1)], ()⟩

/-- Fixture: an iron entry. -/
def feEntry : Entry Unit := ⟨TaskId.strId "mp-1", [("Fe", 1)], ()⟩

/-- Fixture: a second all-lithium entry with a distinct id. -/
def liEntry2 : Entry Unit := ⟨TaskId.strId "mp-2", [("Li", 1)], ()⟩

/-- Fixture: three same-composition entries whose ids carry the trailing
integers 105, 7 and 1000. -/
def entriesMp : List (Entry Unit) :=
  [⟨TaskId.strId "mp-105", [("Fe", 1)], ()⟩,
   ⟨TaskId.strId "mp-7", [("Fe", 1)], ()⟩,
   ⟨TaskId.strId "mp-1000", [("Fe", 1)], ()⟩]

/-! Helper lemmas shared by the claim theorems. -/

theorem get_id_num_ok_of_idKey {t : TaskId} {n : Int} (h : idKey t = some n) :
    _get_id_num t = .ok n := by
  cases t with
  | intId m =>
      simp only [idKey, Option.some.injEq] at h
      simp [_get_id_num, h]
  | strId s =>
      simp only [idKey] at h
      simp [_get_id_num, h]
  | other => simp [idKey] at h

theorem get_id_num_err_of_idKey {t : TaskId} (h : idKey t = none) :
    ∃ msg, _get_id_num t = .error (.valueError msg) := by
  cases t with
  | intId m => simp [idKey] at h
  | strId s =>
      simp only [idKey] at h
      exact ⟨"invalid literal for int with base 10: " ++ lastSegment s, by simp [_get_id_num, h]⟩
  | other => exact ⟨"TaskID needs to be either a number or of the form xxx-#####", rfl⟩

theorem mem_insertLeB {β : Type} (le : β → β → Bool) (x a : β) (l : List β) :
    a ∈ insertLeB le x l ↔ a = x ∨ a ∈ l := by
  induction l with
  | nil => simp [insertLeB]
  | cons y ys ih =>
      by_cases h : le x y = true
      · simp [insertLeB, h]
      · simp only [insertLeB, h]
        simp [ih]
        tauto

theorem mem_sortLeB {β : Type} (le : β → β → Bool) (a : β) (l : List β) :
    a ∈ sortLeB le l ↔ a ∈ l := by
  induction l with
  | nil => simp [sortLeB]
  | cons y ys ih => simp [sortLeB, mem_insertLeB, ih]

theorem mem_canonSet (a : String) (l : List String) :
    a ∈ canonSet l ↔ a ∈ l := by
  simp [canonSet, mem_sortLeB]

theorem insertLeB_perm {β : Type} (le : β → β → Bool) (x : β) (l : List β) :
    List.Perm (insertLeB le x l) (x :: l) := by
  induction l with
  | nil => exact List.Perm.refl _
  | cons y ys ih =>
      by_cases h : le x y = true
      · have hx : insertLeB le x (y :: ys) = x :: y :: ys := by
          simp [insertLeB, h]
        rw [hx]
      · have hx : insertLeB le x (y :: ys) = y :: insertLeB le x ys := by
          simp [insertLeB, h]
        rw [hx]
        exact (ih.cons y).trans (List.Perm.swap x y ys)

theorem sortLeB_perm {β : Type} (le : β → β → Bool) (l : List β) :
    List.Perm (sortLeB le l) l := by
  induction l with
  | nil => exact List.Perm.refl _
  | cons y ys ih => exact (insertLeB_perm le y (sortLeB le ys)).trans (ih.cons y)

theorem canonSet_nodup (l : List String) : (canonSet l).Nodup :=
  (sortLeB_perm strLe l.dedup).nodup_iff.mpr l.nodup_dedup

theorem strLe_refl (a : String) : strLe a a = true := by
  simp [strLe]

theorem strLe_total (a b : String) : strLe a b = true ∨ strLe b a = true := by
  by_cases h : b.data < a.data
  · right
    simp [strLe, asymm h]
  · left
    simp [strLe, h]

theorem strLe_trans {a b c : String} (h1 : strLe a b = true) (h2 : strLe b c = true) :
    strLe a c = true := by
  simp only [strLe, Bool.not_eq_true', decide_eq_false_iff_not, not_lt] at h1 h2 ⊢
  exact h1.trans h2

theorem pairwise_insertLeB {β : Type} (le : β → β → Bool)
    (htot : ∀ a b, le a b = true ∨ le b a = true)
    (htrans : ∀ a b c, le a b = true → le b c = true → le a c = true)
    (x : β) (l : List β) (hl : l.Pairwise (fun a b => le a b = true)) :
    (insertLeB le x l).Pairwise (fun a b => le a b = true) := by
  induction l with
  | nil => simp [insertLeB]
  | cons y ys ih =>
      cases hl with
      | cons hy hys =>
        by_cases h : le x y = true
        · have hx : insertLeB le x (y :: ys) = x :: y :: ys := by
            simp [insertLeB, h]
          rw [hx]
          refine List.Pairwise.cons ?_ (List.Pairwise.cons hy hys)
          intro z hz
          rcases List.mem_cons.1 hz with rfl | hz
          · exact h
          · exact htrans x y z h (hy z hz)
        · have hx : insertLeB le x (y :: ys) = y :: insertLeB le x ys := by
            simp [insertLeB, h]
          rw [hx]
          refine List.Pairwise.cons ?_ (ih hys)
          intro z hz
          rcases (mem_insertLeB le x z ys).1 hz with rfl | hz
          · rcases htot z y with h1 | h1
            · exact absurd h1 h
            · exact h1
          · exact hy z hz

theorem pairwise_sortLeB {β : Type} (le : β → β → Bool)
    (htot : ∀ a b, le a b = true ∨ le b a = true)
    (htrans : ∀ a b c, le a b = true → le b c = true → le a c = true)
    (l : List β) : (sortLeB le l).Pairwise (fun a b => le a b = true) := by
  induction l with
  | nil => simp [sortLeB]
  | cons y ys ih => exact pairwise_insertLeB le htot htrans y (sortLeB le ys) ih

theorem pairwise_canonSet (l : List String) :
    (canonSet l).Pairwise (fun a b => strLe a b = true) :=
  pairwise_sortLeB strLe strLe_total (fun _ _ _ => strLe_trans) l.dedup

theorem mem_groupAtoms_aux {σ : Type} (l : List (Entry σ)) (acc : List String) (x : String) :
    x ∈ l.foldl (fun s e => s ++ keysOf e.composition) acc ↔
      x ∈ acc ∨ ∃ e ∈ l, x ∈ keysOf e.composition := by
  induction l generalizing acc with
  | nil => simp
  | cons e es ih =>
      simp only [List.foldl_cons, ih, List.mem_append, List.mem_cons]
      constructor
      · rintro (⟨h | h⟩ | ⟨f, hf, hx⟩)
        · exact Or.inl h
        · exact Or.inr ⟨e, Or.inl rfl, h⟩
        · exact Or.inr ⟨f, Or.inr hf, hx⟩
      · rintro (h | ⟨f, rfl | hf, hx⟩)
        · exact Or.inl (Or.inl h)
        · exact Or.inl (Or.inr hx)
        · exact Or.inr ⟨f, hf, hx⟩

theorem mem_groupAtoms {σ : Type} (entries : List (Entry σ)) (x : String) :
    x ∈ groupAtoms entries ↔ ∃ e ∈ entries, x ∈ keysOf e.composition := by
  simpa using mem_groupAtoms_aux entries [] x

theorem pyMinLoop_ok (xs : List TaskId) (best : TaskId × Int)
    (hb : idKey best.1 = some best.2)
    (hxs : ∀ y ∈ xs, (idKey y).isSome) :
    ∃ m k, pyMinLoop xs best = .ok (m, k) ∧ idKey m = some k ∧
      (m = best.1 ∨ m ∈ xs) ∧ k ≤ best.2 ∧
      ∀ y ∈ xs, ∀ j, idKey y = some j → k ≤ j := by
  induction xs generalizing best with
  | nil =>
      exact ⟨best.1, best.2, rfl, hb, Or.inl rfl, le_refl _, by simp⟩
  | cons y ys ih =>
      obtain ⟨j, hj⟩ := Option.isSome_iff_exists.1 (hxs y (List.mem_cons_self y ys))
      have hstep : pyMinLoop (y :: ys) best =
          pyMinLoop ys (if j < best.2 then (y, j) else best) := by
        simp [pyMinLoop, get_id_num_ok_of_idKey hj]
      have hb' : idKey (if j < best.2 then (y, j) else best).1 =
          some (if j < best.2 then (y, j) else best).2 := by
        by_cases hlt : j < best.2 <;> simp [hlt, hj, hb]
      obtain ⟨m, k, h1, h2, h3, h4, h5⟩ :=
        ih (if j < best.2 then (y, j) else best) hb'
          (fun z hz => hxs z (List.mem_cons_of_mem y hz))
      refine ⟨m, k, hstep.trans h1, h2, ?_, ?_, ?_⟩
      · rcases h3 with h3 | h3
        · by_cases hlt : j < best.2
          · simp [hlt] at h3
            exact Or.inr (h3 ▸ List.mem_cons_self y ys)
          · simp [hlt] at h3
            exact Or.inl h3
        · exact Or.inr (List.mem_cons_of_mem y h3)
      · by_cases hlt : j < best.2
        · simp [hlt] at h4
          exact h4.trans (le_of_lt hlt)
        · simpa [hlt] using h4
      · intro z hz i hi
        rcases List.mem_cons.1 hz with rfl | hz
        · have hji : j = i := by
            rw [hj] at hi
            exact Option.some.inj hi
          subst hji
          by_cases hlt : j < best.2
          · simpa [hlt] using h4
          · have h4' : k ≤ best.2 := by simpa [hlt] using h4
            exact h4'.trans (not_lt.1 hlt)
        · exact h5 z hz i hi

theorem pyMinByKey_ok (ids : List TaskId) (h1 : ids ≠ [])
    (h2 : ∀ t ∈ ids, (idKey t).isSome) :
    ∃ m k, pyMinByKey ids = .ok m ∧ m ∈ ids ∧ idKey m = some k ∧
      ∀ t ∈ ids, ∀ j, idKey t = some j → k ≤ j := by
  cases ids with
  | nil => exact absurd rfl h1
  | cons x xs =>
      obtain ⟨kx, hkx⟩ := Option.isSome_iff_exists.1 (h2 x (List.mem_cons_self x xs))
      obtain ⟨m, k, hrun, hkey, hmem, hle, hmin⟩ :=
        pyMinLoop_ok xs (x, kx) hkx (fun z hz => h2 z (List.mem_cons_of_mem x hz))
      have hmem' : m = x ∨ m ∈ xs := hmem
      have hle' : k ≤ kx := hle
      refine ⟨m, k, ?_, ?_, hkey, ?_⟩
      · simp [pyMinByKey, get_id_num_ok_of_idKey hkx, hrun, Except.map]
      · rcases hmem' with rfl | hmem'
        · exact List.mem_cons_self _ xs
        · exact List.mem_cons_of_mem x hmem'
      · intro t ht j hj
        rcases List.mem_cons.1 ht with rfl | ht
        · have hjk : kx = j := by
            rw [hkx] at hj
            exact Option.some.inj hj
          exact hjk ▸ hle'
        · exact hmin t ht j hj

/-! Claim theorems. -/

/-- C1. The specification states that for a reflexive, symmetric and
transitive predicate the labels of `generic_groupby` induce exactly the
connected-component partition, with as many distinct labels as components.
The code violates this: the inner merge tests the cell against `None`
although the list was initialised with `-1`, so a matching later index is
never labelled from the current one. On two equal items (under decidable
equality of naturals, an equivalence relation) the two indices, which form a
single component, receive the distinct labels `-1` and `0`, and the number
of distinct labels is `2` rather than `1`. -/
theorem generic_groupby_component_partition_fails :
    generic_groupby [0, 0] (fun a b : Nat => a == b) = [some (-1), some 0] ∧
    ((0 : Nat) == 0) = true ∧
    (generic_groupby [0, 0] (fun a b : Nat => a == b)).dedup.length = 2 := by
  decide

/-- C2. The specification states that two indices directly compared equal
during the scan end with the same final label. The code violates this: for
the input `[5, 5]` the pair of indices `(0, 1)` is evaluated and found
equal, yet index `0` keeps the sentinel label `-1` while index `1` receives
the label `0`. -/
theorem generic_groupby_direct_link_label_fails :
    ((5 : Nat) == 5) = true ∧
    (generic_groupby [5, 5] (fun a b : Nat => a == b))[0]? = some (some (-1)) ∧
    (generic_groupby [5, 5] (fun a b : Nat => a == b))[1]? = some (some 0) := by
  decide

/-- C3. The specification states that when the predicate is true for every
pair, every item receives the same label. The code violates this on the
two-element always-true instance, where the labels are `-1` and `0`. -/
theorem generic_groupby_all_equal_label_fails :
    generic_groupby [7, 7] (fun _ _ : Nat => true) = [some (-1), some 0] := by
  decide

/-- C4. The specification states that the member counts of the produced
groups sum exactly to the number of supplied entries, any mismatch raising
`RuntimeError`. The code violates this: the "ignored" framework bucket is
counted into the consistency counter but never appended to the results, so
for a single entry containing only ignored species the call returns an empty
group list (summed member count `0`, input count `1`) without raising. -/
theorem from_ungrouped_member_count_postcondition_fails :
    from_ungrouped_structure_entries [liOnlyEntry] ["Li"] (fun _ _ => true) =
      .ok ([] : List StructureGroupDoc) ∧
    [liOnlyEntry].length = 1 := by
  constructor
  · decide
  · decide

/-- C5. The specification states that the returned list contains a catch-all
group with `structure_matched = false` holding the all-ignored entries
whenever such entries exist. The code violates this: for one all-lithium
entry and one iron entry with lithium ignored, the returned list holds only
the structure-matched iron group; the all-ignored entry appears in no
returned group and no group with `structure_matched = false` is returned. -/
theorem from_ungrouped_ignored_group_dropped :
    (from_ungrouped_structure_entries [liEntry2, feEntry] ["Li"] (fun _ _ => true)).map
        (fun ds => ds.map (fun d => (d.structure_matched, d.grouped_ids))) =
      .ok [(true, [TaskId.strId "mp-1"])] := by
  decide

/-- C6. For every non-empty grouped-entry list whose ids are all well formed
and whose framework computation succeeds, `from_grouped_entries` sets
`material_id` to a member id whose parsed trailing integer is least among
all members, comparing the parsed integers. -/
theorem from_grouped_entries_material_id_min {σ : Type} (entries : List (Entry σ))
    (ignored_species : List String) (sm : Bool) (fs : String)
    (h1 : entries ≠ [])
    (h2 : ∀ e ∈ entries, (idKey e.entry_id).isSome)
    (h3 : framework_of_group entries ignored_species = .ok fs) :
    ∃ doc k, from_grouped_entries entries ignored_species sm = .ok doc ∧
      doc.material_id ∈ entries.map (fun e => e.entry_id) ∧
      idKey doc.material_id = some k ∧
      ∀ t ∈ entries.map (fun e => e.entry_id), ∀ j, idKey t = some j → k ≤ j := by
  have hne : entries.map (fun e => e.entry_id) ≠ [] := by
    simpa using h1
  have h2' : ∀ t ∈ entries.map (fun e => e.entry_id), (idKey t).isSome := by
    intro t ht
    obtain ⟨e, he, rfl⟩ := List.mem_map.1 ht
    exact h2 e he
  obtain ⟨m, k, hmin, hmem, hkey, hleast⟩ :=
    pyMinByKey_ok (entries.map (fun e => e.entry_id)) hne h2'
  have hdoc : from_grouped_entries entries ignored_species sm = .ok
      { material_id := m
        grouped_ids := entries.map (fun e => e.entry_id)
        structure_matched := sm
        framework_formula := fs
        ignored_species := sortLeB strLe ignored_species
        chemsys := String.intercalate "-" (canonSet (groupAtoms entries ++ ignored_species))
        has_distinct_compositions := decide (1 < (groupFormulas entries).dedup.length) } := by
    simp [from_grouped_entries, h3, hmin]
  exact ⟨_, k, hdoc, hmem, hkey, hleast⟩

/-- Witness for C6 at the ids `mp-105`, `mp-7`, `mp-1000`: the hypotheses
hold, and the selected canonical id is `mp-7`, whose trailing integer `7` is
numerically least although `"mp-1000" < "mp-105" < "mp-7"` holds
lexicographically. -/
theorem from_grouped_entries_material_id_min_app :
    (∃ doc k, from_grouped_entries entriesMp [] true = .ok doc ∧
      doc.material_id ∈ entriesMp.map (fun e => e.entry_id) ∧
      idKey doc.material_id = some k ∧
      ∀ t ∈ entriesMp.map (fun e => e.entry_id), ∀ j, idKey t = some j → k ≤ j) ∧
    (from_grouped_entries entriesMp [] true).map (fun d => d.material_id) =
      .ok (TaskId.strId "mp-7") :=
  ⟨from_grouped_entries_material_id_min entriesMp [] true "Fe1"
      (by decide) (by decide) (by decide),
    by decide⟩

/-- C7. `_get_id_num` returns the parsed integer key exactly on the
well-formed ids (a plain integer, or a string whose final hyphen-separated
segment parses as an integer, the notion captured by `idKey`), and every
failure it reports is a `ValueError`. -/
theorem get_id_num_valueerror_spec (t : TaskId) :
    (∀ n : Int, _get_id_num t = .ok n ↔ idKey t = some n) ∧
    ((∃ e, _get_id_num t = .error e) ↔ idKey t = none) ∧
    (∀ e, _get_id_num t = .error e → ∃ msg, e = .valueError msg) := by
  cases t with
  | intId m => simp [_get_id_num, idKey]
  | strId s =>
      cases hp : parsePyInt (lastSegment s) with
      | none => simp [_get_id_num, idKey, hp]
      | some n => simp [_get_id_num, idKey, hp]
  | other => simp [_get_id_num, idKey]

/-- Witness for C7: the well-formed id `mp-7` yields the key `7`, and the
malformed id `abc-x` yields a `ValueError`. -/
theorem get_id_num_valueerror_spec_app :
    _get_id_num (TaskId.strId "mp-7") = .ok 7 ∧
    ∃ e, _get_id_num (TaskId.strId "abc-x") = .error e ∧ ∃ msg, e = .valueError msg := by
  refine ⟨((get_id_num_valueerror_spec (TaskId.strId "mp-7")).1 7).2 (by decide), ?_⟩
  obtain ⟨e, he⟩ := ((get_id_num_valueerror_spec (TaskId.strId "abc-x")).2.1).2 (by decide)
  exact ⟨e, he, (get_id_num_valueerror_spec (TaskId.strId "abc-x")).2.2 e he⟩

/-- C8 counterexample. The claim states that an ignored species appears in
`chemsys` only when its atoms are present in some entry of the group. For a
single iron entry with lithium ignored, no entry contains lithium, yet the
produced `chemsys` is `"Fe-Li"`, not `"Fe"`: the source joins
`all_atoms | set(ignored_species)`, adding every ignored species
unconditionally. -/
theorem from_grouped_entries_chemsys_includes_absent_ignored :
    (from_grouped_entries [feEntry] ["Li"] true).map (fun d => d.chemsys) =
      .ok "Fe-Li" ∧
    ("Li" ∈ groupAtoms [feEntry]) = False ∧ "Fe-Li" ≠ "Fe" := by
  refine ⟨by decide, by simp [groupAtoms, keysOf, feEntry], by decide⟩

/-- C8 amended. The `chemsys` field is the hyphen-joined, ascending-sorted,
duplicate-free list of the union of the element symbols present in the
entries of the group and all the ignored species (each ignored species
appears whether or not its atoms are present). -/
theorem from_grouped_entries_chemsys_amended {σ : Type} (entries : List (Entry σ))
    (ignored_species : List String) (sm : Bool) (fs : String)
    (h1 : entries ≠ [])
    (h2 : ∀ e ∈ entries, (idKey e.entry_id).isSome)
    (h3 : framework_of_group entries ignored_species = .ok fs) :
    ∃ doc parts, from_grouped_entries entries ignored_species sm = .ok doc ∧
      doc.chemsys = String.intercalate "-" parts ∧
      (∀ x, x ∈ parts ↔ ((∃ e ∈ entries, x ∈ keysOf e.composition) ∨ x ∈ ignored_species)) ∧
      parts.Pairwise (fun a b => strLe a b = true) ∧
      parts.Nodup := by
  have hne : entries.map (fun e => e.entry_id) ≠ [] := by
    simpa using h1
  have h2' : ∀ t ∈ entries.map (fun e => e.entry_id), (idKey t).isSome := by
    intro t ht
    obtain ⟨e, he, rfl⟩ := List.mem_map.1 ht
    exact h2 e he
  obtain ⟨m, k, hmin, hmem, hkey, hleast⟩ :=
    pyMinByKey_ok (entries.map (fun e => e.entry_id)) hne h2'
  have hdoc : from_grouped_entries entries ignored_species sm = .ok
      { material_id := m
        grouped_ids := entries.map (fun e => e.entry_id)
        structure_matched := sm
        framework_formula := fs
        ignored_species := sortLeB strLe ignored_species
        chemsys := String.intercalate "-" (canonSet (groupAtoms entries ++ ignored_species))
        has_distinct_compositions := decide (1 < (groupFormulas entries).dedup.length) } := by
    simp [from_grouped_entries, h3, hmin]
  refine ⟨_, canonSet (groupAtoms entries ++ ignored_species), hdoc, rfl, ?_,
    pairwise_canonSet _, canonSet_nodup _⟩
  intro x
  rw [mem_canonSet, List.mem_append, mem_groupAtoms]

/-- Witness for C8 amended at the single iron entry with lithium ignored:
the hypotheses hold and the characterised parts list is `["Fe", "Li"]`. -/
theorem from_grouped_entries_chemsys_amended_app :
    ∃ doc parts, from_grouped_entries [feEntry] ["Li"] true = .ok doc ∧
      doc.chemsys = String.intercalate "-" parts ∧
      (∀ x, x ∈ parts ↔ ((∃ e ∈ [feEntry], x ∈ keysOf e.composition) ∨ x ∈ ["Li"])) ∧
      parts.Pairwise (fun a b => strLe a b = true) ∧
      parts.Nodup :=
  from_grouped_entries_chemsys_amended [feEntry] ["Li"] true "Fe1"
    (by decide) (by decide) (by decide)

/-- C9. `identify_solute` raises the "not yet supported" `ValueError`
whenever more than one residue species has charge above the `0.01`
threshold, and returns the unique such species name when exactly one
species has charge above the threshold. -/
theorem identify_solute_spec (residues : List Residue) :
    (1 < (speciesAboveThreshold residues).length →
      identify_solute residues =
        .error (.valueError "Multiple cationic species detected, not yet supported.")) ∧
    ∀ s, speciesAboveThreshold residues = [s] → identify_solute residues = .ok s := by
  constructor
  · intro h
    simp [identify_solute, h]
  · intro s hs
    simp [identify_solute, hs]

/-- Witness for C9: with sodium the unique species above threshold the
solute is sodium; with sodium and potassium both above threshold the
explicit `ValueError` is raised. -/
theorem identify_solute_spec_app :
    identify_solute [Residue.mk "Na" 1] = .ok "Na" ∧
    identify_solute [Residue.mk "Na" 1, Residue.mk "K" 1] =
      .error (.valueError "Multiple cationic species detected, not yet supported.") :=
  ⟨(identify_solute_spec [Residue.mk "Na" 1]).2 "Na" (by decide),
    (identify_solute_spec [Residue.mk "Na" 1, Residue.mk "K" 1]).1 (by decide)⟩

/-- C10. The specification states that `identify_networking_solvents`
returns the anionic counter-ion species, never the solute itself. The code
violates this: it filters residues with charge above `0.01` — the same
filter `identify_solute` uses, despite the comment naming them anions — so
for a sodium cation and a chloride anion it returns exactly the sodium
solute and omits the chloride counter-ion. -/
theorem identify_networking_solvents_returns_cations :
    identify_networking_solvents [Residue.mk "Na" 1, Residue.mk "Cl" (-1)] = ["Na"] ∧
    identify_solute [Residue.mk "Na" 1, Residue.mk "Cl" (-1)] = .ok "Na" := by
  constructor
  · decide
  · decide

end Emmet
